import Mathlib

/-!
Shallow embedding of the ESP32 RGB LED strip library core:
the pixel type (`Pixel.hpp` / `Pixel.cpp`), the pixel containers
(`PixelVector.cpp`, `PixelMatrix.cpp`), the matrix geometry
(`LedMatrixParameters` in `PixelMatrix.cpp`) and the display arbiter
(`RgbLedController.cpp`).  Machine integers are modelled as `Nat`/`Int`
with explicit truncation where the C++ arithmetic can wrap;
`std::size_t` is 32 bits wide on the ESP32 target.
-/

namespace LEDStrip

/-- Width of `std::size_t` (= `PixelVector::size_type`) on the 32-bit target. -/
def SIZE_W : Nat := 4294967296

/-- Conversion of a C++ `int` value to `unsigned int` (32 bits): reduction
modulo `2^32`, yielding the canonical non-negative representative. -/
def toUnsignedInt (x : Int) : Nat := (x % 4294967296).toNat

/-! ### Pixel (`Pixel.hpp`, `Pixel.cpp`) -/

/-- A pixel: three 8-bit colour channels, each modelled as a `Nat` (< 256). -/
structure Pixel where
  red : Nat
  green : Nat
  blue : Nat
deriving DecidableEq, Repr, Inhabited

/-- The three channels of a pixel are in the 8-bit range. -/
def Pixel.Wf (p : Pixel) : Prop := p.red < 256 ∧ p.green < 256 ∧ p.blue < 256

instance (p : Pixel) : Decidable p.Wf := by unfold Pixel.Wf; infer_instance

/-- `Pixel::min`: `std::min(std::min(blue, green), red)`. -/
def Pixel.min (p : Pixel) : Nat := Nat.min (Nat.min p.blue p.green) p.red

/-- `Pixel::max`: `std::max(std::max(blue, green), red)`. -/
def Pixel.max (p : Pixel) : Nat := Nat.max (Nat.max p.blue p.green) p.red

/-- `Pixel::dim(brightness_factor)`: `b = factor + 1` as `uint16_t`, then each
channel becomes `(channel * b) >> 8`, truncated to `uint8_t` on store. -/
def Pixel.dim (p : Pixel) (brightness_factor : Nat) : Pixel :=
  let b := (brightness_factor + 1) % 65536
  { red := ((p.red * b) >>> 8) % 256
    green := ((p.green * b) >>> 8) % 256
    blue := ((p.blue * b) >>> 8) % 256 }

/-- `Pixel::hue`: the 6-sector HSL hue formula from `Pixel.cpp`, with C++
`int` division (truncation toward zero, `Int.tdiv`) and C++ `%` (`Int.tmod`),
and the final conversion of the signed result to the `unsigned int` return
type. -/
def Pixel.hue (p : Pixel) : Nat :=
  let max_ch : Int := (p.max : Int)
  let min_ch : Int := (p.min : Int)
  let chroma : Int := max_ch - min_ch
  if chroma = 0 then 0
  else if (p.red : Int) = max_ch then
    toUnsignedInt
      (Int.tmod
        (Int.tdiv (Int.tdiv (600 * ((p.green : Int) - (p.blue : Int))) chroma) 10)
        360)
  else if (p.green : Int) = max_ch then
    toUnsignedInt
      (Int.tmod
        (Int.tdiv (Int.tdiv (600 * ((p.blue : Int) - (p.red : Int))) chroma) 10 + 120)
        360)
  else
    toUnsignedInt
      (Int.tmod
        (Int.tdiv (Int.tdiv (600 * ((p.red : Int) - (p.green : Int))) chroma) 10 + 240)
        360)

/-! ### Matrix geometry (`LedMatrixParameters`, `PixelMatrix.cpp`) -/

/-- `LedMatrixWiring` (`zig_zag`/`progressive` are aliases in the source). -/
inductive LedMatrixWiring where
  | serpentine
  | linear
deriving DecidableEq, Repr

/-- `LedMatrixFirstPixel`. -/
inductive LedMatrixFirstPixel where
  | top_left
  | top_right
  | bottom_left
  | bottom_right
deriving DecidableEq, Repr

/-- `LedMatrixArrangement`. -/
inductive LedMatrixArrangement where
  | rows
  | columns
deriving DecidableEq, Repr

/-- `LedMatrixParameters` (the geometry-relevant fields). -/
structure LedMatrixParameters where
  row_count : Nat
  column_count : Nat
  first_pixel : LedMatrixFirstPixel
  arrangement : LedMatrixArrangement
  wiring : LedMatrixWiring
deriving DecidableEq, Repr

/-- The `INV(size, value)` macro: `((size) - 1) - (value)`. -/
def INV (size value : Nat) : Nat := size - 1 - value

/-- `LedMatrixParameters::indexToCoordinates`: physical index to logical
`(row, col)`, per `PixelMatrix.cpp`. -/
def LedMatrixParameters.indexToCoordinates
    (P : LedMatrixParameters) (index : Nat) : Nat × Nat :=
  match P.arrangement with
  | .rows =>
    let row := index / P.column_count
    let col := index % P.column_count
    let reverse : Bool := (row % 2 == 1) && (P.wiring == .serpentine)
    let col :=
      if (((P.first_pixel == .top_right) || (P.first_pixel == .bottom_right)) ^^ reverse)
      then INV P.column_count col else col
    let row :=
      if (P.first_pixel == .bottom_left) || (P.first_pixel == .bottom_right)
      then INV P.row_count row else row
    (row, col)
  | .columns =>
    let col := index / P.row_count
    let row := index % P.row_count
    let reverse : Bool := (col % 2 == 1) && (P.wiring == .serpentine)
    let row :=
      if (((P.first_pixel == .bottom_left) || (P.first_pixel == .bottom_right)) ^^ reverse)
      then INV P.row_count row else row
    let col :=
      if (P.first_pixel == .top_right) || (P.first_pixel == .bottom_right)
      then INV P.column_count col else col
    (row, col)

/-- `LedMatrixParameters::coordinatesToIndex`: logical `(row, col)` to
physical index — the 4-corner × 2-arrangement switch from `PixelMatrix.cpp`. -/
def LedMatrixParameters.coordinatesToIndex
    (P : LedMatrixParameters) (row col : Nat) : Nat :=
  match P.first_pixel with
  | .top_left =>
    match P.arrangement with
    | .rows =>
      if (row % 2 == 1) && (P.wiring == .serpentine)
      then row * P.column_count + INV P.column_count col
      else row * P.column_count + col
    | .columns =>
      if (col % 2 == 1) && (P.wiring == .serpentine)
      then col * P.row_count + INV P.row_count row
      else col * P.row_count + row
  | .top_right =>
    match P.arrangement with
    | .rows =>
      if (row % 2 == 1) && (P.wiring == .serpentine)
      then row * P.column_count + col
      else row * P.column_count + INV P.column_count col
    | .columns =>
      if (col % 2 == 1) && (P.wiring == .serpentine)
      then INV P.column_count col * P.row_count + INV P.row_count row
      else INV P.column_count col * P.row_count + row
  | .bottom_left =>
    match P.arrangement with
    | .rows =>
      if (row % 2 == 1) && (P.wiring == .serpentine)
      then INV P.row_count row * P.column_count + INV P.column_count col
      else INV P.row_count row * P.column_count + col
    | .columns =>
      if (col % 2 == 1) && (P.wiring == .serpentine)
      then col * P.row_count + row
      else col * P.row_count + INV P.row_count row
  | .bottom_right =>
    match P.arrangement with
    | .rows =>
      if (row % 2 == 1) && (P.wiring == .serpentine)
      then INV P.row_count row * P.column_count + col
      else INV P.row_count row * P.column_count + INV P.column_count col
    | .columns =>
      if (col % 2 == 1) && (P.wiring == .serpentine)
      then INV P.column_count col * P.row_count + row
      else INV P.column_count col * P.row_count + INV P.row_count row

/-- `LedMatrixParameters::canonicalIndex`. -/
def LedMatrixParameters.canonicalIndex (P : LedMatrixParameters) (index : Nat) : Nat :=
  let rc := P.indexToCoordinates index
  rc.1 * P.column_count + rc.2

/-! ### PixelVector (`PixelVector.cpp`)

The buffer is a `List Pixel`; indexed writes are `List.set`, indexed reads
are `List.getD` (always in range when the source reads). -/

/-- One step of the cycle-following loop: `next_index = current + shift;`
`if (next_index >= n) next_index -= n;`. -/
def cycleNext (n shift current : Nat) : Nat :=
  let next := current + shift
  if n ≤ next then next - n else next

/-- The `while (true)` loop of the shift-down branch of `PixelVector::shift`,
with explicit fuel (the loop breaks after at most `n` steps; `shift` is
already reduced `mod n`).  Returns the updated buffer and the final value of
`current` (where `temp` is stored afterwards). -/
def cycLoop (n shift toIdx start : Nat) :
    Nat → Nat → List Pixel → List Pixel × Nat
  | 0, current, buf => (buf, current)
  | fuel + 1, current, buf =>
    let next := cycleNext n shift current
    if next = start then (buf, current)
    else
      cycLoop n shift toIdx start fuel next
        (buf.set (current + toIdx) (buf.getD (next + toIdx) default))

/-- One iteration of the `for (start = 0; start < num_cycles; ++start)` loop:
save `temp`, follow the cycle, store `temp` at the final position. -/
def jugglingCycle (n shift toIdx : Nat) (buf : List Pixel) (start : Nat) :
    List Pixel :=
  let temp := buf.getD (start + toIdx) default
  let res := cycLoop n shift toIdx start n start buf
  res.1.set (res.2 + toIdx) temp

/-- The whole shift-down body (window length `n`, offset `toIdx`,
`0 < shift < n`): one juggling cycle per `start < gcd(n, shift)`. -/
def shiftDownRun (n shift toIdx : Nat) (buf : List Pixel) : List Pixel :=
  (List.range (Nat.gcd n shift)).foldl (jugglingCycle n shift toIdx) buf

/-- `PixelVector::shift(from_index, to_index, shift)`.  Out-of-range indices
clamp to `size() - 1` (computed in `size_type` arithmetic, so an empty vector
clamps to `2^32 - 1`).  `from > to` rotates the window down;
`from < to` computes `equivalent = (n - shift) % n` in **unsigned 32-bit**
arithmetic and recurses, which immediately takes the shift-down branch
(inlined here, since the recursive call's indices are already in range and
`equivalent % n = equivalent`). -/
def PixelVector.shift (buf : List Pixel) (from_index to_index shift : Nat) :
    List Pixel :=
  let from_index :=
    if buf.length ≤ from_index then (buf.length + SIZE_W - 1) % SIZE_W
    else from_index
  let to_index :=
    if buf.length ≤ to_index then (buf.length + SIZE_W - 1) % SIZE_W
    else to_index
  if to_index < from_index then
    let n := from_index - to_index + 1
    let s := shift % n
    if 0 < s then shiftDownRun n s to_index buf else buf
  else if from_index < to_index then
    let n := to_index - from_index + 1
    let equivalent := (n + SIZE_W - shift % SIZE_W) % SIZE_W % n
    if 0 < equivalent then shiftDownRun n equivalent from_index buf else buf
  else buf

/-- `PixelVector::operator<<(count)`: shift down (toward index 0) the whole
buffer, `shift(size() - 1, 0, count)`, when `size() > 1`. -/
def PixelVector.shl (buf : List Pixel) (count : Nat) : List Pixel :=
  if 1 < buf.length then PixelVector.shift buf (buf.length - 1) 0 count else buf

/-- `PixelVector::operator>>(count)`: shift up (toward the last index) the
whole buffer, `shift(0, size() - 1, count)`, when `size() > 1`. -/
def PixelVector.shr (buf : List Pixel) (count : Nat) : List Pixel :=
  if 1 < buf.length then PixelVector.shift buf 0 (buf.length - 1) count else buf

/-! ### PixelMatrix (`PixelMatrix.hpp`, `PixelMatrix.cpp`) -/

/-- `std::vector<Pixel>::at(i)`: bounds-checked element access —
`some` element if `i < size()`, `none` models the `std::out_of_range`
exception. -/
def vectorAt (l : List Pixel) (i : Nat) : Option Pixel := l[i]?

/-- `PixelMatrix`: a pixel vector with a row/column shape.  The class
invariant maintained by every constructor and `resize` is
`data.length = rows * columns`. -/
structure PixelMatrix where
  rows : Nat
  columns : Nat
  data : List Pixel
deriving DecidableEq, Repr

/-- `PixelMatrix::at(row, col)`: `return PixelVector::at(Idx(row, col));`
where the `Idx(r, c)` macro computes `r * columns + c` in `size_type`
arithmetic, which wraps modulo `2^32`. -/
def PixelMatrix.atCell (m : PixelMatrix) (row col : Nat) : Option Pixel :=
  vectorAt m.data ((row * m.columns + col) % SIZE_W)

/-! ### Display arbiter (`RgbLedController.cpp`) -/

/-- A live `RgbGuard`: its identity (distinct live guards have distinct
addresses, modelled by `guardId`) and its `_priority` field. -/
structure RgbGuard where
  guardId : Nat
  priority : Nat
deriving DecidableEq, Repr

/-- The state owned by an `RgbLedController`: the `priorityQueue` vector, the
cached `prioritizedGuard` (null modelled as `none`), plus the log of buffers
transmitted by the device-level `show(pixels)` (the external collaborator). -/
structure RgbLedController where
  priorityQueue : List RgbGuard
  prioritizedGuard : Option RgbGuard
  deviceLog : List (List Pixel)
deriving DecidableEq, Repr

/-- A freshly constructed controller: empty queue, `prioritizedGuard = nullptr`,
nothing transmitted yet. -/
def RgbLedController.init : RgbLedController :=
  { priorityQueue := [], prioritizedGuard := none, deviceLog := [] }

/-- `RgbLedController::acquire(guard)`: push the guard to the back of
`priorityQueue`; replace the cached winner only when there is none or the new
guard's priority is strictly greater. -/
def RgbLedController.acquire (s : RgbLedController) (guard : RgbGuard) :
    RgbLedController :=
  { s with
    priorityQueue := s.priorityQueue ++ [guard]
    prioritizedGuard :=
      match s.prioritizedGuard with
      | none => some guard
      | some w => if w.priority < guard.priority then some guard else some w }

/-- `std::find` + `erase`: remove the first occurrence of `g`.  (If `g` is
absent the source's assertion fires — debug-fatal; the erase is then a no-op
here, and the theorems only use states where the guard is present.) -/
def eraseFirst (l : List RgbGuard) (g : RgbGuard) : List RgbGuard :=
  match l with
  | [] => []
  | x :: xs => if x = g then xs else x :: eraseFirst xs g

/-- `std::max_element(first, last, comp)` with `comp a b = a->priority() <
b->priority()` over a non-empty range: keeps the **first** element that no
later element strictly exceeds. -/
def maxElementFrom (best : RgbGuard) : List RgbGuard → RgbGuard
  | [] => best
  | x :: rest => maxElementFrom (if best.priority < x.priority then x else best) rest

/-- `RgbLedController::release(guard)`: erase the guard from the queue, then
recompute the cached winner — `nullptr` if the queue emptied, otherwise
`std::max_element` over the remainder. -/
def RgbLedController.release (s : RgbLedController) (guard : RgbGuard) :
    RgbLedController :=
  let q := eraseFirst s.priorityQueue guard
  { s with
    priorityQueue := q
    prioritizedGuard :=
      match q with
      | [] => none
      | x :: rest => some (maxElementFrom x rest) }

/-- The unconditional, device-level `show(pixels)` (pure virtual here;
implemented by the hardware back end): transmit the buffer. -/
def RgbLedController.showAll (s : RgbLedController) (pixels : List Pixel) :
    RgbLedController :=
  { s with deviceLog := s.deviceLog ++ [pixels] }

/-- `RgbLedController::show(pixels, guard)` (delegated to by
`RgbGuard::show`): if `guard == prioritizedGuard`, forward to the
device-level `show` and return `true`; otherwise return `false`. -/
def RgbLedController.showGuarded (s : RgbLedController) (pixels : List Pixel)
    (guard : RgbGuard) : Bool × RgbLedController :=
  if some guard = s.prioritizedGuard then (true, s.showAll pixels) else (false, s)

/-- An attach (`RgbGuard` constructor) or detach (destructor) event. -/
inductive ArbiterOp where
  | acq : RgbGuard → ArbiterOp
  | rel : RgbGuard → ArbiterOp
deriving DecidableEq, Repr

/-- Apply one attach/detach event to the controller state. -/
def arbStep (s : RgbLedController) : ArbiterOp → RgbLedController
  | .acq g => s.acquire g
  | .rel g => s.release g

/-- Run a sequence of attach/detach events. -/
def arbRun (s : RgbLedController) (ops : List ArbiterOp) : RgbLedController :=
  ops.foldl arbStep s

/-- A sequence of events is valid when every attached guard is a fresh object
(not currently live) and every detached guard is currently live — the
caller contract that the source enforces with assertions and the guard
constructor/destructor pairing. -/
def validOps (s : RgbLedController) : List ArbiterOp → Bool
  | [] => true
  | .acq g :: rest => !(decide (g ∈ s.priorityQueue)) && validOps (s.acquire g) rest
  | .rel g :: rest => decide (g ∈ s.priorityQueue) && validOps (s.release g) rest

/-- The arbiter invariant: an absent winner means an empty live set, and a
cached winner is a member of the live set of maximal priority. -/
def ArbiterInv (s : RgbLedController) : Prop :=
  match s.prioritizedGuard with
  | none => s.priorityQueue = []
  | some w => w ∈ s.priorityQueue ∧ ∀ g ∈ s.priorityQueue, g.priority ≤ w.priority

/-- `w` occurs in `q` and every element strictly before its first occurrence
has strictly smaller priority, while everything after has priority ≤ `w`:
`w` is the element `std::max_element` selects. -/
def IsFirstMax (q : List RgbGuard) (w : RgbGuard) : Prop :=
  ∃ q1 q2, q = q1 ++ w :: q2 ∧ (∀ g ∈ q1, g.priority < w.priority) ∧
    ∀ g ∈ q2, g.priority ≤ w.priority

instance (s : RgbLedController) : Decidable (ArbiterInv s) := by
  unfold ArbiterInv
  cases s.prioritizedGuard <;> infer_instance

/-- Event sequence used to witness the arbiter invariant theorem. -/
def c2DemoOps : List ArbiterOp :=
  [ArbiterOp.acq ⟨1, 5⟩, ArbiterOp.acq ⟨2, 5⟩, ArbiterOp.acq ⟨3, 9⟩,
    ArbiterOp.rel ⟨1, 5⟩, ArbiterOp.rel ⟨3, 9⟩]

/-- Controller state used to witness the show-arbitration theorem. -/
def c4DemoState : RgbLedController :=
  { priorityQueue := [⟨1, 3⟩], prioritizedGuard := some ⟨1, 3⟩, deviceLog := [] }

/-- Controller state used to witness the release-winner theorem. -/
def c10DemoState : RgbLedController :=
  { priorityQueue := [⟨1, 2⟩, ⟨2, 7⟩, ⟨3, 7⟩], prioritizedGuard := some ⟨2, 7⟩,
    deviceLog := [] }

/-- A 2×3 pixel matrix holding six distinguishable pixels. -/
def c7DemoMatrix : PixelMatrix :=
  { rows := 2, columns := 3,
    data := [⟨0, 0, 0⟩, ⟨1, 0, 0⟩, ⟨2, 0, 0⟩, ⟨3, 0, 0⟩, ⟨4, 0, 0⟩, ⟨5, 0, 0⟩] }

/-- The position visited by the cycle that starts at `start` after `t` steps
of stride `s` around a window of length `n`. -/
def orbPos (n s start t : Nat) : Nat := (start + t * s) % n

/-- The sequence of `cnt` writes performed by the cycle loop beginning at
step `t`: step `u` stores the buffer's value at orbit position `u + 1` into
orbit position `u` (both offset by `toIdx`).  `cycLoop` is proved equal to
this unrolled form. -/
def cycWrites (n s toIdx start : Nat) : Nat → Nat → List Pixel → List Pixel
  | _, 0, buf => buf
  | t, cnt + 1, buf =>
    cycWrites n s toIdx start (t + 1) cnt
      (buf.set (orbPos n s start t + toIdx)
        (buf.getD (orbPos n s start (t + 1) + toIdx) default))

/-- Three distinguishable pixels, used by the rotation counterexample and
witness. -/
def c5DemoBuf : List Pixel := [⟨1, 0, 0⟩, ⟨2, 0, 0⟩, ⟨3, 0, 0⟩]

/-!
## Theorems
-/

/-- C1: On the 2×2 matrix with `first_pixel = bottom_left`,
`arrangement = rows`, `wiring = serpentine`, the two coordinate mappings are
**not** mutually inverse: `coordinatesToIndex (indexToCoordinates 0) = 1 ≠ 0`
(the wire-order walk puts physical pixel 1, not 0, at cell (1,0)), and in the
other direction `indexToCoordinates (coordinatesToIndex (0,0)) = (0,1) ≠
(0,0)`.  `indexToCoordinates` reverses a serpentine row based on its
physical (wire-order) parity while `coordinatesToIndex` tests the logical
row parity, and the two disagree for even `row_count` with a bottom-side
first pixel. -/
theorem C1_geometry_roundtrip_fails_on_2x2 :
    (LedMatrixParameters.mk 2 2 .bottom_left .rows .serpentine).coordinatesToIndex
      ((LedMatrixParameters.mk 2 2 .bottom_left .rows .serpentine).indexToCoordinates 0).1
      ((LedMatrixParameters.mk 2 2 .bottom_left .rows .serpentine).indexToCoordinates 0).2 = 1 ∧
    (LedMatrixParameters.mk 2 2 .bottom_left .rows .serpentine).indexToCoordinates
      ((LedMatrixParameters.mk 2 2 .bottom_left .rows .serpentine).coordinatesToIndex 0 0)
      = (0, 1) := by
  decide

/-- C6: on the 3×3 matrix, `coordinatesToIndex` realises the two reference
wiring grids: top-left/rows/serpentine gives `[[0,1,2],[5,4,3],[6,7,8]]` and
top-right/rows/linear gives `[[2,1,0],[5,4,3],[8,7,6]]` (row by row). -/
theorem C6_reference_grids_3x3 :
    (List.range 3).map (fun r => (List.range 3).map (fun c =>
        (LedMatrixParameters.mk 3 3 .top_left .rows .serpentine).coordinatesToIndex r c))
      = [[0, 1, 2], [5, 4, 3], [6, 7, 8]] ∧
    (List.range 3).map (fun r => (List.range 3).map (fun c =>
        (LedMatrixParameters.mk 3 3 .top_right .rows .linear).coordinatesToIndex r c))
      = [[2, 1, 0], [5, 4, 3], [8, 7, 6]] := by
  decide

/-- C8 counterexample: `dim(255)` on full white is an exact no-op —
`b = 255 + 1 = 256` and `255 * 256 >> 8 = 255` — so the result is
`(255,255,255)`, not the claimed `(254,254,254)`. -/
theorem C8_dim255_white_is_identity_not_254 :
    Pixel.dim ⟨255, 255, 255⟩ 255 = ⟨255, 255, 255⟩ ∧
    Pixel.dim ⟨255, 255, 255⟩ 255 ≠ ⟨254, 254, 254⟩ := by
  decide

/-- C8 (amended): for every pixel with 8-bit channels, `dim(0)` yields pure
black, and `dim(255)` applied to full white leaves it at exactly
`(255,255,255)` — a perfect no-op, since the `+1` bias makes the multiplier
`256`. -/
theorem C8_dim_endpoints (p : Pixel) (h : p.Wf) :
    p.dim 0 = ⟨0, 0, 0⟩ ∧ Pixel.dim ⟨255, 255, 255⟩ 255 = ⟨255, 255, 255⟩ := by
  obtain ⟨hr, hg, hb⟩ := h
  refine ⟨?_, by decide⟩
  simp only [Pixel.dim]
  congr 1 <;> simp <;> omega

/-- C8 witness: the amended theorem applied to the concrete pixel
`(10, 200, 255)`. -/
theorem C8_dim_endpoints_witness :
    (Pixel.mk 10 200 255).Wf ∧ (Pixel.mk 10 200 255).dim 0 = ⟨0, 0, 0⟩ :=
  ⟨by decide, (C8_dim_endpoints ⟨10, 200, 255⟩ (by decide)).1⟩

/-- C9: `hue()` does not stay in `[0, 359]`: for magenta `(255, 0, 255)` the
red-is-max branch computes `((600 * (0 - 255) / 255) / 10) % 360 = -60` with
C++ truncating division and remainder, and returning it as `unsigned int`
yields `2^32 - 60 = 4294967236`. -/
theorem C9_hue_magenta_out_of_range :
    Pixel.hue ⟨255, 0, 255⟩ = 4294967236 ∧ 359 < Pixel.hue ⟨255, 0, 255⟩ := by
  decide

/-! ### Arbiter lemmas -/

theorem isFirstMax_mem {q : List RgbGuard} {w : RgbGuard} (h : IsFirstMax q w) :
    w ∈ q := by
  obtain ⟨q1, q2, rfl, -, -⟩ := h
  simp

theorem isFirstMax_ge {q : List RgbGuard} {w : RgbGuard} (h : IsFirstMax q w) :
    ∀ g ∈ q, g.priority ≤ w.priority := by
  obtain ⟨q1, q2, rfl, hlt, hle⟩ := h
  intro g hg
  rcases List.mem_append.mp hg with hg' | hg'
  · exact le_of_lt (hlt g hg')
  · rcases List.mem_cons.mp hg' with rfl | hg''
    · exact le_refl _
    · exact hle g hg''

theorem maxElementFrom_isFirstMax (l : List RgbGuard) (best : RgbGuard) :
    IsFirstMax (best :: l) (maxElementFrom best l) := by
  induction l generalizing best with
  | nil => exact ⟨[], [], rfl, by simp, by simp⟩
  | cons x rest ih =>
    simp only [maxElementFrom]
    by_cases h : best.priority < x.priority
    · rw [if_pos h]
      have hxw : x.priority ≤ (maxElementFrom x rest).priority :=
        isFirstMax_ge (ih x) x (List.mem_cons_self x rest)
      have hIH := ih x
      set v := maxElementFrom x rest with hvdef
      obtain ⟨q1, q2, heq, hlt, hle⟩ := hIH
      refine ⟨best :: q1, q2, by rw [List.cons_append, ← heq], ?_, hle⟩
      intro g hg
      rcases List.mem_cons.mp hg with rfl | hg'
      · omega
      · exact hlt g hg'
    · rw [if_neg h]
      have hIH := ih best
      set w := maxElementFrom best rest with hwdef
      obtain ⟨q1, q2, heq, hlt, hle⟩ := hIH
      cases q1 with
      | nil =>
        simp only [List.nil_append, List.cons.injEq] at heq
        obtain ⟨hwb, hq2⟩ := heq
        refine ⟨[], x :: rest, by rw [List.nil_append, ← hwb], by simp, ?_⟩
        intro g hg
        rw [← hwb]
        rcases List.mem_cons.mp hg with rfl | hg'
        · omega
        · have hgw := hle g (hq2 ▸ hg')
          rw [← hwb] at hgw
          exact hgw
      | cons a as =>
        simp only [List.cons_append, List.cons.injEq] at heq
        obtain ⟨hab, hrest⟩ := heq
        have hbw : best.priority < w.priority := by
          have ha := hlt a (List.mem_cons_self a as)
          rw [← hab] at ha
          exact ha
        refine ⟨best :: x :: as, q2, ?_, ?_, hle⟩
        · rw [List.cons_append, List.cons_append, ← hrest]
        · intro g hg
          rcases List.mem_cons.mp hg with rfl | hg'
          · exact hbw
          · rcases List.mem_cons.mp hg' with rfl | hg''
            · omega
            · exact hlt g (List.mem_cons_of_mem a hg'')

theorem eraseFirst_append_of_not_mem (l : List RgbGuard) (g : RgbGuard)
    (rest : List RgbGuard) (h : g ∉ l) :
    eraseFirst (l ++ g :: rest) g = l ++ rest := by
  induction l with
  | nil => simp [eraseFirst]
  | cons x xs ih =>
    have hx : x ≠ g := fun hxg => h (hxg ▸ List.mem_cons_self x xs)
    have hih := ih (fun hm => h (List.mem_cons_of_mem x hm))
    simp only [List.cons_append, eraseFirst, if_neg hx]
    exact congrArg (List.cons x) hih

theorem arbInv_acquire (s : RgbLedController) (g : RgbGuard)
    (h : ArbiterInv s) : ArbiterInv (s.acquire g) := by
  unfold ArbiterInv RgbLedController.acquire at *
  cases hw : s.prioritizedGuard with
  | none =>
    rw [hw] at h
    simp only [hw, h]
    exact ⟨by simp, by simp⟩
  | some w =>
    rw [hw] at h
    obtain ⟨hmem, hbound⟩ := h
    simp only [hw]
    by_cases hp : w.priority < g.priority
    · rw [if_pos hp]
      refine ⟨by simp, ?_⟩
      intro x hx
      rcases List.mem_append.mp hx with hx' | hx'
      · exact le_of_lt (lt_of_le_of_lt (hbound x hx') hp)
      · simp only [List.mem_singleton] at hx'
        exact le_of_eq (congrArg RgbGuard.priority hx')
    · rw [if_neg hp]
      refine ⟨List.mem_append_left _ hmem, ?_⟩
      intro x hx
      rcases List.mem_append.mp hx with hx' | hx'
      · exact hbound x hx'
      · simp only [List.mem_singleton] at hx'
        subst hx'
        omega

theorem arbInv_release (s : RgbLedController) (g : RgbGuard) :
    ArbiterInv (s.release g) := by
  unfold ArbiterInv RgbLedController.release
  cases hq : eraseFirst s.priorityQueue g with
  | nil => simp
  | cons x rest =>
    simp only []
    have := maxElementFrom_isFirstMax rest x
    exact ⟨isFirstMax_mem this, isFirstMax_ge this⟩

theorem arbInv_run (ops : List ArbiterOp) :
    ∀ s : RgbLedController, ArbiterInv s → ArbiterInv (arbRun s ops) := by
  induction ops with
  | nil => intro s h; exact h
  | cons op rest ih =>
    intro s h
    cases op with
    | acq g => exact ih _ (arbInv_acquire s g h)
    | rel g => exact ih _ (arbInv_release s g)

theorem release_winner_isFirstMax (s : RgbLedController) (g : RgbGuard)
    (hne : (s.release g).priorityQueue ≠ []) :
    ∃ w, (s.release g).prioritizedGuard = some w ∧
      IsFirstMax (s.release g).priorityQueue w := by
  unfold RgbLedController.release at *
  cases hq : eraseFirst s.priorityQueue g with
  | nil => rw [hq] at hne; simp at hne
  | cons x rest =>
    simp only [hq]
    exact ⟨maxElementFrom x rest, rfl, maxElementFrom_isFirstMax rest x⟩

/-- C2: for every valid sequence of attach (acquire) and detach (release)
operations starting from a fresh controller, the reached state satisfies: an
empty live set has no cached `prioritizedGuard`, and a non-empty live set has
a cached winner that is a member of the set with priority ≥ every live
guard's priority. -/
theorem C2_arbiter_priority_invariant (ops : List ArbiterOp)
    (hv : validOps RgbLedController.init ops = true) :
    ((arbRun RgbLedController.init ops).priorityQueue = [] →
      (arbRun RgbLedController.init ops).prioritizedGuard = none) ∧
    ((arbRun RgbLedController.init ops).priorityQueue ≠ [] →
      ∃ w, (arbRun RgbLedController.init ops).prioritizedGuard = some w ∧
        w ∈ (arbRun RgbLedController.init ops).priorityQueue ∧
        ∀ g ∈ (arbRun RgbLedController.init ops).priorityQueue,
          g.priority ≤ w.priority) := by
  have hinv : ArbiterInv (arbRun RgbLedController.init ops) :=
    arbInv_run ops RgbLedController.init (by simp [ArbiterInv, RgbLedController.init])
  unfold ArbiterInv at hinv
  cases hw : (arbRun RgbLedController.init ops).prioritizedGuard with
  | none =>
    rw [hw] at hinv
    exact ⟨fun _ => rfl, fun hne => absurd hinv hne⟩
  | some w =>
    rw [hw] at hinv
    refine ⟨fun hq => ?_, fun _ => ⟨w, rfl, hinv.1, hinv.2⟩⟩
    rw [hq] at hinv
    exact absurd hinv.1 (List.not_mem_nil w)

/-- C2 witness: the invariant theorem applied to a concrete valid run
(attach 1@5, attach 2@5, attach 3@9, detach 1, detach 3). -/
theorem C2_arbiter_priority_invariant_witness :
    validOps RgbLedController.init c2DemoOps = true ∧
    (((arbRun RgbLedController.init c2DemoOps).priorityQueue = [] →
      (arbRun RgbLedController.init c2DemoOps).prioritizedGuard = none) ∧
    ((arbRun RgbLedController.init c2DemoOps).priorityQueue ≠ [] →
      ∃ w, (arbRun RgbLedController.init c2DemoOps).prioritizedGuard = some w ∧
        w ∈ (arbRun RgbLedController.init c2DemoOps).priorityQueue ∧
        ∀ g ∈ (arbRun RgbLedController.init c2DemoOps).priorityQueue,
          g.priority ≤ w.priority)) :=
  ⟨by decide, C2_arbiter_priority_invariant c2DemoOps (by decide)⟩

/-- C4: `show(pixels, guard)` for a guard that is not the cached winner
returns `false` and leaves the whole controller state (live set, cached
winner, device) untouched; for the cached winner it returns `true` and
forwards exactly the given buffer to the device-level `show`, leaving the
live set and cached winner unchanged. -/
theorem C4_show_arbitration (s : RgbLedController) (px : List Pixel)
    (g : RgbGuard) :
    (s.prioritizedGuard ≠ some g →
      (s.showGuarded px g).1 = false ∧ (s.showGuarded px g).2 = s) ∧
    (s.prioritizedGuard = some g →
      (s.showGuarded px g).1 = true ∧
      (s.showGuarded px g).2.deviceLog = s.deviceLog ++ [px] ∧
      (s.showGuarded px g).2.priorityQueue = s.priorityQueue ∧
      (s.showGuarded px g).2.prioritizedGuard = s.prioritizedGuard) := by
  unfold RgbLedController.showGuarded RgbLedController.showAll
  constructor
  · intro h
    rw [if_neg (fun heq => h heq.symm)]
    exact ⟨rfl, rfl⟩
  · intro h
    rw [if_pos h.symm]
    exact ⟨rfl, rfl, rfl, rfl⟩

/-- C4 witness: the arbitration theorem applied to a concrete state whose
winner is guard 1@3 — the losing guard 2@1 gets `false` and an unchanged
state, the winner gets `true`. -/
theorem C4_show_arbitration_witness :
    (c4DemoState.prioritizedGuard ≠ some ⟨2, 1⟩ ∧
      (c4DemoState.showGuarded [] ⟨2, 1⟩).1 = false ∧
      (c4DemoState.showGuarded [] ⟨2, 1⟩).2 = c4DemoState) ∧
    (c4DemoState.prioritizedGuard = some ⟨1, 3⟩ ∧
      (c4DemoState.showGuarded [] ⟨1, 3⟩).1 = true) :=
  ⟨⟨by decide, (C4_show_arbitration c4DemoState [] ⟨2, 1⟩).1 (by decide)⟩,
    ⟨by decide, ((C4_show_arbitration c4DemoState [] ⟨1, 3⟩).2 (by decide)).1⟩⟩

theorem acquire_queue (s : RgbLedController) (g : RgbGuard) :
    (s.acquire g).priorityQueue = s.priorityQueue ++ [g] := rfl

theorem acquire_winner_none (s : RgbLedController) (g : RgbGuard)
    (h : s.prioritizedGuard = none) : (s.acquire g).prioritizedGuard = some g := by
  unfold RgbLedController.acquire
  rw [h]

theorem acquire_winner_some (s : RgbLedController) (g w : RgbGuard)
    (h : s.prioritizedGuard = some w) :
    (s.acquire g).prioritizedGuard =
      if w.priority < g.priority then some g else some w := by
  unfold RgbLedController.acquire
  rw [h]

theorem release_queue (s : RgbLedController) (g : RgbGuard) :
    (s.release g).priorityQueue = eraseFirst s.priorityQueue g := rfl

theorem showGuarded_true (s : RgbLedController) (px : List Pixel) (g : RgbGuard)
    (h : s.prioritizedGuard = some g) : (s.showGuarded px g).1 = true := by
  unfold RgbLedController.showGuarded
  rw [if_pos h.symm]

theorem showGuarded_false (s : RgbLedController) (px : List Pixel) (g : RgbGuard)
    (h : s.prioritizedGuard ≠ some g) : (s.showGuarded px g).1 = false := by
  unfold RgbLedController.showGuarded
  rw [if_neg (fun hc => h hc.symm)]

/-- C3: starting from any state satisfying the arbiter invariant in which
every live guard's priority is strictly below `p`, attach `g1` then `g2`,
both with priority `p`: the first-attached `g1` is the cached winner — its
`show` returns `true`, `g2`'s returns `false` — and once `g1` detaches, `g2`
becomes the winner and its `show` returns `true`. -/
theorem C3_equal_priority_tie_break (s : RgbLedController) (px : List Pixel)
    (g1 g2 : RgbGuard) (hInv : ArbiterInv s)
    (hmax : ∀ g ∈ s.priorityQueue, g.priority < g1.priority)
    (heq : g2.priority = g1.priority) (hne : g1 ≠ g2) :
    ((s.acquire g1).acquire g2).prioritizedGuard = some g1 ∧
    (((s.acquire g1).acquire g2).showGuarded px g1).1 = true ∧
    (((s.acquire g1).acquire g2).showGuarded px g2).1 = false ∧
    (((s.acquire g1).acquire g2).release g1).prioritizedGuard = some g2 ∧
    ((((s.acquire g1).acquire g2).release g1).showGuarded px g2).1 = true := by
  have hw1 : (s.acquire g1).prioritizedGuard = some g1 := by
    cases hw : s.prioritizedGuard with
    | none => exact acquire_winner_none s g1 hw
    | some w =>
      rw [acquire_winner_some s g1 w hw]
      unfold ArbiterInv at hInv
      rw [hw] at hInv
      exact if_pos (hmax w hInv.1)
  have hw2 : ((s.acquire g1).acquire g2).prioritizedGuard = some g1 := by
    rw [acquire_winner_some (s.acquire g1) g2 g1 hw1]
    exact if_neg (by omega)
  have hg1notmem : g1 ∉ s.priorityQueue := by
    intro hm
    have := hmax g1 hm
    omega
  have hqq : ((s.acquire g1).acquire g2).priorityQueue =
      s.priorityQueue ++ g1 :: [g2] := by
    rw [acquire_queue, acquire_queue, List.append_assoc]
    rfl
  have herase : (((s.acquire g1).acquire g2).release g1).priorityQueue =
      s.priorityQueue ++ [g2] := by
    rw [release_queue, hqq]
    exact eraseFirst_append_of_not_mem _ _ _ hg1notmem
  have hwrel : (((s.acquire g1).acquire g2).release g1).prioritizedGuard =
      some g2 := by
    obtain ⟨w, hwin, hfm⟩ :=
      release_winner_isFirstMax ((s.acquire g1).acquire g2) g1
        (by rw [herase]; simp)
    rw [herase] at hfm
    have hwg2 : w = g2 := by
      rcases List.mem_append.mp (isFirstMax_mem hfm) with hm | hm
      · have h1 := hmax w hm
        have h2 := isFirstMax_ge hfm g2 (List.mem_append_right _ (List.mem_singleton.mpr rfl))
        omega
      · exact List.mem_singleton.mp hm
    rw [hwin, hwg2]
  refine ⟨hw2, showGuarded_true _ px g1 hw2, ?_, hwrel, showGuarded_true _ px g2 hwrel⟩
  exact showGuarded_false _ px g2 (by rw [hw2]; exact fun hc => hne (Option.some.inj hc))

/-- C3 witness: the tie-break theorem applied to a fresh controller and the
concrete guards 1@4 and 2@4. -/
theorem C3_equal_priority_tie_break_witness :
    ArbiterInv RgbLedController.init ∧
    (∀ g ∈ RgbLedController.init.priorityQueue,
      g.priority < (RgbGuard.mk 1 4).priority) ∧
    (RgbGuard.mk 2 4).priority = (RgbGuard.mk 1 4).priority ∧
    RgbGuard.mk 1 4 ≠ RgbGuard.mk 2 4 ∧
    ((RgbLedController.init.acquire ⟨1, 4⟩).acquire ⟨2, 4⟩).prioritizedGuard
      = some ⟨1, 4⟩ ∧
    (((RgbLedController.init.acquire ⟨1, 4⟩).acquire ⟨2, 4⟩).release
      ⟨1, 4⟩).prioritizedGuard = some ⟨2, 4⟩ :=
  ⟨by decide, by decide, by decide, by decide,
    (C3_equal_priority_tie_break RgbLedController.init [] ⟨1, 4⟩ ⟨2, 4⟩
      (by decide) (by decide) (by decide) (by decide)).1,
    (C3_equal_priority_tie_break RgbLedController.init [] ⟨1, 4⟩ ⟨2, 4⟩
      (by decide) (by decide) (by decide) (by decide)).2.2.2.1⟩

/-- C10: after `release(guard)` with a non-empty remaining queue, the new
cached winner is the first maximal-priority element of the remaining queue
(everything before it in queue order is strictly smaller, everything after is
≤); moreover `acquire` appends at the back and `release` erases the first
occurrence preserving the relative order of the rest, so that position is the
earliest (re)acquisition among surviving maximal-priority guards. -/
theorem C10_release_winner_earliest_max (s : RgbLedController) (g : RgbGuard)
    (hne : (s.release g).priorityQueue ≠ []) :
    (∃ w, (s.release g).prioritizedGuard = some w ∧
      IsFirstMax (s.release g).priorityQueue w) ∧
    (s.release g).priorityQueue = eraseFirst s.priorityQueue g ∧
    (s.acquire g).priorityQueue = s.priorityQueue ++ [g] :=
  ⟨release_winner_isFirstMax s g hne, rfl, rfl⟩

/-- C10 witness: releasing guard 2@7 from queue `[1@2, 2@7, 3@7]` leaves a
non-empty queue, and the theorem yields its winner (guard 3@7, the earliest
surviving maximum). -/
theorem C10_release_winner_earliest_max_witness :
    (c10DemoState.release ⟨2, 7⟩).priorityQueue ≠ [] ∧
    (∃ w, (c10DemoState.release ⟨2, 7⟩).prioritizedGuard = some w ∧
      IsFirstMax (c10DemoState.release ⟨2, 7⟩).priorityQueue w) ∧
    (c10DemoState.release ⟨2, 7⟩).priorityQueue =
      eraseFirst c10DemoState.priorityQueue ⟨2, 7⟩ ∧
    (c10DemoState.acquire ⟨2, 7⟩).priorityQueue =
      c10DemoState.priorityQueue ++ [⟨2, 7⟩] :=
  ⟨by decide, C10_release_winner_earliest_max c10DemoState ⟨2, 7⟩ (by decide)⟩

/-- C7 counterexample: on a 2-row × 3-column matrix, `at(0, 4)` has
`col = 4 ≥ columns = 3` but does **not** fail: the only check is
`std::vector::at` on the flattened index `0 * 3 + 4 = 4 < 6`, so the call
succeeds and returns the pixel stored at flat position 4 (row 1, column 1).
Likewise `at(1431655766, 0)` has `row ≥ rows = 2`, yet `Idx` wraps in
`size_type`: `1431655766 * 3 = 2^32 + 2 ≡ 2 (mod 2^32)`, so the call
succeeds as well instead of failing as the claim requires. -/
theorem C7_at_out_of_column_succeeds :
    (c7DemoMatrix.atCell 0 4 = some ⟨4, 0, 0⟩ ∧ c7DemoMatrix.columns ≤ 4) ∧
    ((c7DemoMatrix.atCell 1431655766 0).isSome = true ∧
      c7DemoMatrix.rows ≤ 1431655766) := by
  decide

/-- C7 (amended): `at(row, col)` is bounds-checked only on the **flattened**
`size_type` index `(row * columns + col) mod 2^32`: it fails exactly when
that wrapped index is ≥ `rows * columns`, and for every in-range pair
(`row < rows`, `col < columns`, with the matrix small enough to exist on the
32-bit target, `rows * columns < 2^32`) it returns the pixel at canonical
row-major position `row * columns + col` without failing. -/
theorem C7_at_bounds (m : PixelMatrix) (row col : Nat)
    (hlen : m.data.length = m.rows * m.columns)
    (hW : m.rows * m.columns < SIZE_W) :
    (m.atCell row col = none ↔
      m.rows * m.columns ≤ (row * m.columns + col) % SIZE_W) ∧
    (row < m.rows → col < m.columns →
      m.atCell row col = m.data[row * m.columns + col]? ∧
      (m.atCell row col).isSome = true) := by
  constructor
  · rw [show m.atCell row col = m.data[(row * m.columns + col) % SIZE_W]?
      from rfl, List.getElem?_eq_none_iff, hlen]
  · intro hr hc
    have hidx : row * m.columns + col < m.rows * m.columns := by
      calc row * m.columns + col < row * m.columns + m.columns := by omega
        _ = (row + 1) * m.columns := by ring
        _ ≤ m.rows * m.columns := Nat.mul_le_mul_right _ (by omega)
    have hmod : (row * m.columns + col) % SIZE_W = row * m.columns + col :=
      Nat.mod_eq_of_lt (by omega)
    have hlt : row * m.columns + col < m.data.length := by
      rw [hlen]
      exact hidx
    refine ⟨?_, ?_⟩
    · rw [show m.atCell row col = m.data[(row * m.columns + col) % SIZE_W]?
        from rfl, hmod]
    · rw [show m.atCell row col = m.data[(row * m.columns + col) % SIZE_W]?
        from rfl, hmod, List.getElem?_eq_getElem hlt]
      rfl

/-- C7 witness: the amended bounds theorem applied to the 2×3 demo matrix at
the in-range cell (1, 2) and at the out-of-range cell (5, 0). -/
theorem C7_at_bounds_witness :
    c7DemoMatrix.data.length = c7DemoMatrix.rows * c7DemoMatrix.columns ∧
    c7DemoMatrix.rows * c7DemoMatrix.columns < SIZE_W ∧
    (c7DemoMatrix.atCell 5 0 = none ↔
      c7DemoMatrix.rows * c7DemoMatrix.columns ≤
        (5 * c7DemoMatrix.columns + 0) % SIZE_W) ∧
    (c7DemoMatrix.atCell 1 2 = c7DemoMatrix.data[1 * c7DemoMatrix.columns + 2]? ∧
      (c7DemoMatrix.atCell 1 2).isSome = true) :=
  ⟨by decide, by decide,
    (C7_at_bounds c7DemoMatrix 5 0 (by decide) (by decide)).1,
    (C7_at_bounds c7DemoMatrix 1 2 (by decide) (by decide)).2
      (by decide) (by decide)⟩

/-! ### Cycle-orbit arithmetic for the juggling rotation -/

theorem orb_m_two_le (n s : Nat) (hn : 0 < n) (hs : 0 < s) (hsn : s < n) :
    2 ≤ n / Nat.gcd n s := by
  have hgpos : 0 < Nat.gcd n s := Nat.gcd_pos_of_pos_left s hn
  have hgs : Nat.gcd n s ≤ s := Nat.le_of_dvd hs (Nat.gcd_dvd_right n s)
  obtain ⟨k, hk⟩ := Nat.gcd_dvd_left n s
  have hk2 : 2 ≤ k := by
    by_contra hcon
    push_neg at hcon
    have hle : Nat.gcd n s * k ≤ Nat.gcd n s * 1 :=
      Nat.mul_le_mul_left _ (by omega)
    rw [Nat.mul_one] at hle
    have h1 : n ≤ Nat.gcd n s := le_of_eq_of_le hk hle
    omega
  have hdiv : n / Nat.gcd n s = k := Nat.div_eq_of_eq_mul_right hgpos hk
  rw [hdiv]
  exact hk2

theorem orb_dvd_iff (n s d : Nat) (hn : 0 < n) :
    n ∣ d * s ↔ (n / Nat.gcd n s) ∣ d := by
  have hgpos : 0 < Nat.gcd n s := Nat.gcd_pos_of_pos_left s hn
  have hcop := Nat.coprime_div_gcd_div_gcd (m := n) (n := s) hgpos
  have hgm : Nat.gcd n s * (n / Nat.gcd n s) = n :=
    Nat.mul_div_cancel' (Nat.gcd_dvd_left n s)
  have hgs : Nat.gcd n s * (s / Nat.gcd n s) = s :=
    Nat.mul_div_cancel' (Nat.gcd_dvd_right n s)
  set g := Nat.gcd n s with hgdef
  set m := n / g with hmdef
  set t := s / g with htdef
  constructor
  · intro h
    have h2 : g * m ∣ g * (d * t) := by
      rw [hgm, show g * (d * t) = d * (g * t) from by ring, hgs]
      exact h
    exact hcop.dvd_of_dvd_mul_right ((Nat.mul_dvd_mul_iff_left hgpos).mp h2)
  · rintro ⟨e, rfl⟩
    refine ⟨e * t, ?_⟩
    rw [← hgs, ← hgm]
    ring

theorem orbPos_lt (n s start t : Nat) (hn : 0 < n) : orbPos n s start t < n :=
  Nat.mod_lt _ hn

theorem orbPos_zero (n s start : Nat) (hst : start < n) :
    orbPos n s start 0 = start := by
  unfold orbPos
  rw [Nat.zero_mul, Nat.add_zero]
  exact Nat.mod_eq_of_lt hst

theorem orbPos_succ (n s start t : Nat) :
    orbPos n s start (t + 1) = (orbPos n s start t + s) % n := by
  unfold orbPos
  rw [Nat.succ_mul, ← Nat.add_assoc, ← Nat.mod_add_mod]

theorem cycleNext_eq (n s x : Nat) (hx : x < n) (hs : s < n) :
    cycleNext n s x = (x + s) % n := by
  unfold cycleNext
  by_cases h : n ≤ x + s
  · rw [if_pos h, Nat.mod_eq_sub_mod h, Nat.mod_eq_of_lt (by omega)]
  · rw [if_neg h, Nat.mod_eq_of_lt (by omega)]

theorem orbPos_eq_start_iff (n s start u : Nat) (hn : 0 < n) (hst : start < n) :
    orbPos n s start u = start ↔ (n / Nat.gcd n s) ∣ u := by
  rw [← orb_dvd_iff n s u hn]
  unfold orbPos
  constructor
  · intro h
    have h2 : start + u * s ≡ start + 0 [MOD n] := by
      show (start + u * s) % n = (start + 0) % n
      rw [h, Nat.add_zero, Nat.mod_eq_of_lt hst]
    exact Nat.modEq_zero_iff_dvd.mp (Nat.ModEq.add_left_cancel' start h2)
  · intro h
    have h2 : u * s ≡ 0 [MOD n] := Nat.modEq_zero_iff_dvd.mpr h
    have h3 := Nat.ModEq.add_left start h2
    calc (start + u * s) % n = (start + 0) % n := h3
      _ = start := by rw [Nat.add_zero, Nat.mod_eq_of_lt hst]

theorem orbPos_inj_of_le (n s start : Nat) (hn : 0 < n) (t t' : Nat)
    (hle : t ≤ t') (ht' : t' - t < n / Nat.gcd n s)
    (heq : orbPos n s start t = orbPos n s start t') : t = t' := by
  have h2 : start + t * s ≡ start + t' * s [MOD n] := heq
  have h3 := Nat.ModEq.add_left_cancel' start h2
  have h4 : n ∣ t' * s - t * s :=
    (Nat.modEq_iff_dvd' (Nat.mul_le_mul_right s hle)).mp h3
  rw [← Nat.sub_mul] at h4
  have h5 := (orb_dvd_iff n s (t' - t) hn).mp h4
  have h6 : t' - t = 0 := Nat.eq_zero_of_dvd_of_lt h5 ht'
  omega

theorem orbPos_inj (n s start : Nat) (hn : 0 < n) (t t' : Nat)
    (ht : t < n / Nat.gcd n s) (ht' : t' < n / Nat.gcd n s)
    (heq : orbPos n s start t = orbPos n s start t') : t = t' := by
  rcases le_total t t' with hle | hle
  · exact orbPos_inj_of_le n s start hn t t' hle (by omega) heq
  · exact (orbPos_inj_of_le n s start hn t' t hle (by omega) heq.symm).symm

theorem orbPos_mod_gcd (n s start t : Nat) :
    orbPos n s start t % Nat.gcd n s = start % Nat.gcd n s := by
  unfold orbPos
  have h0 : t * s % Nat.gcd n s = 0 :=
    Nat.mod_eq_zero_of_dvd (Dvd.dvd.mul_left (Nat.gcd_dvd_right n s) t)
  rw [Nat.mod_mod_of_dvd _ (Nat.gcd_dvd_left n s), Nat.add_mod, h0,
    Nat.add_zero, Nat.mod_mod_of_dvd _ dvd_rfl]

theorem orbPos_surj (n s start i : Nat) (hn : 0 < n) (hs : 0 < s) (hsn : s < n)
    (hstg : start < Nat.gcd n s) (hi : i < n)
    (hres : i % Nat.gcd n s = start) :
    ∃ t, t < n / Nat.gcd n s ∧ orbPos n s start t = i := by
  have hgpos : 0 < Nat.gcd n s := Nat.gcd_pos_of_pos_left s hn
  have hm2 : 2 ≤ n / Nat.gcd n s := orb_m_two_le n s hn hs hsn
  have hcop : Nat.Coprime (s / Nat.gcd n s) (n / Nat.gcd n s) :=
    (Nat.coprime_div_gcd_div_gcd (m := n) (n := s) hgpos).symm
  have hgm : Nat.gcd n s * (n / Nat.gcd n s) = n :=
    Nat.mul_div_cancel' (Nat.gcd_dvd_left n s)
  have hgs : Nat.gcd n s * (s / Nat.gcd n s) = s :=
    Nat.mul_div_cancel' (Nat.gcd_dvd_right n s)
  set g := Nat.gcd n s with hgdef
  set m := n / g with hmdef
  set s' := s / g with hsdef
  obtain ⟨u, hu⟩ := Nat.exists_mul_emod_eq_one_of_coprime hcop (by omega)
  have hstart_le : start ≤ i := by
    have := Nat.mod_le i g
    omega
  have hdvd : g ∣ i - start := by
    have h1 : start ≡ i [MOD g] := by
      show start % g = i % g
      rw [hres, Nat.mod_eq_of_lt hstg]
    exact (Nat.modEq_iff_dvd' hstart_le).mp h1
  obtain ⟨d, hd⟩ := hdvd
  have hdm : d < m := by
    have h1 : g * d < g * m := by
      rw [hgm]
      omega
    exact lt_of_mul_lt_mul_left h1 (Nat.zero_le _)
  have hu' : s' * u ≡ 1 [MOD m] := by
    show s' * u % m = 1 % m
    rw [hu, Nat.mod_eq_of_lt (by omega)]
  have hmodeq1 : (d * u % m) * s' ≡ d [MOD m] := by
    calc (d * u % m) * s'
        ≡ d * u * s' [MOD m] := Nat.ModEq.mul_right s' (Nat.mod_modEq (d * u) m)
      _ = d * (s' * u) := by ring
      _ ≡ d * 1 [MOD m] := Nat.ModEq.mul_left d hu'
      _ = d := by ring
  have hmodeq2 : (d * u % m) * s ≡ g * d [MOD n] := by
    have h1 : g * ((d * u % m) * s') ≡ g * d [MOD g * m] :=
      Nat.ModEq.mul_left' g hmodeq1
    rw [hgm] at h1
    calc (d * u % m) * s = g * ((d * u % m) * s') := by rw [← hgs]; ring
      _ ≡ g * d [MOD n] := h1
  refine ⟨d * u % m, Nat.mod_lt _ (by omega), ?_⟩
  show (start + d * u % m * s) % n = i
  have h3 : start + d * u % m * s ≡ start + g * d [MOD n] :=
    Nat.ModEq.add_left start hmodeq2
  calc (start + d * u % m * s) % n = (start + g * d) % n := h3
    _ = i % n := by rw [show start + g * d = i from by omega]
    _ = i := Nat.mod_eq_of_lt hi

theorem getD_eq_getElem?_of_lt {l : List Pixel} {j : Nat} (h : j < l.length) :
    some (l.getD j default) = l[j]? := by
  rw [List.getD_eq_getElem?_getD, List.getElem?_eq_getElem h]
  rfl

theorem cycLoop_eq_cycWrites (n s toIdx start : Nat) (hn : 0 < n) (hs0 : 0 < s)
    (hsn : s < n) (hst : start < n) :
    ∀ cnt fuel t buf, t + cnt = n / Nat.gcd n s - 1 → cnt ≤ fuel →
      cycLoop n s toIdx start fuel (orbPos n s start t) buf =
        (cycWrites n s toIdx start t cnt buf,
          orbPos n s start (n / Nat.gcd n s - 1)) := by
  intro cnt
  induction cnt with
  | zero =>
    intro fuel t buf ht hf
    have htm : t = n / Nat.gcd n s - 1 := by omega
    subst htm
    cases fuel with
    | zero => rfl
    | succ f =>
      have hm2 : 2 ≤ n / Nat.gcd n s := orb_m_two_le n s hn hs0 hsn
      have hnext :
          cycleNext n s (orbPos n s start (n / Nat.gcd n s - 1)) = start := by
        rw [cycleNext_eq n s _ (orbPos_lt _ _ _ _ hn) hsn, ← orbPos_succ,
          show n / Nat.gcd n s - 1 + 1 = n / Nat.gcd n s from by omega]
        exact (orbPos_eq_start_iff n s start _ hn hst).mpr dvd_rfl
      simp only [cycLoop, hnext, if_pos, cycWrites]
  | succ c ih =>
    intro fuel t buf ht hf
    cases fuel with
    | zero => omega
    | succ f =>
      have hm2 : 2 ≤ n / Nat.gcd n s := orb_m_two_le n s hn hs0 hsn
      have hnext : cycleNext n s (orbPos n s start t) = orbPos n s start (t + 1) := by
        rw [cycleNext_eq n s _ (orbPos_lt _ _ _ _ hn) hsn, ← orbPos_succ]
      have hne : orbPos n s start (t + 1) ≠ start := by
        intro hcon
        have hdvd := (orbPos_eq_start_iff n s start (t + 1) hn hst).mp hcon
        have hle := Nat.le_of_dvd (by omega) hdvd
        omega
      simp only [cycLoop, hnext, if_neg hne]
      rw [ih f (t + 1) _ (by omega) (by omega)]
      rfl

theorem cycWrites_spec (n s toIdx start : Nat) (hn : 0 < n) (hs0 : 0 < s)
    (hsn : s < n) (hst : start < n) :
    ∀ cnt t buf, t + cnt ≤ n / Nat.gcd n s - 1 → toIdx + n ≤ buf.length →
      ((cycWrites n s toIdx start t cnt buf).length = buf.length) ∧
      (∀ j, (∀ u, t ≤ u → u < t + cnt → j ≠ orbPos n s start u + toIdx) →
        (cycWrites n s toIdx start t cnt buf)[j]? = buf[j]?) ∧
      (∀ u, t ≤ u → u < t + cnt →
        (cycWrites n s toIdx start t cnt buf)[orbPos n s start u + toIdx]? =
          buf[orbPos n s start (u + 1) + toIdx]?) := by
  intro cnt
  induction cnt with
  | zero =>
    intro t buf ht hb
    exact ⟨rfl, fun j _ => rfl, fun u hu1 hu2 => by omega⟩
  | succ c ih =>
    intro t buf ht hb
    set b1 := buf.set (orbPos n s start t + toIdx)
      (buf.getD (orbPos n s start (t + 1) + toIdx) default) with hb1def
    have hlen1 : b1.length = buf.length := List.length_set buf _ _
    obtain ⟨ihlen, ihaway, ihhit⟩ :=
      ih (t + 1) b1 (by omega) (by rw [hlen1]; exact hb)
    have hposlt : ∀ u, orbPos n s start u + toIdx < buf.length := fun u => by
      have := orbPos_lt n s start u hn
      omega
    have hwrites_eq : cycWrites n s toIdx start t (c + 1) buf =
        cycWrites n s toIdx start (t + 1) c b1 := rfl
    refine ⟨?_, ?_, ?_⟩
    · rw [hwrites_eq, ihlen, hlen1]
    · intro j hj
      rw [hwrites_eq, ihaway j (fun u hu1 hu2 => hj u (by omega) (by omega))]
      exact List.getElem?_set_ne (Ne.symm (hj t (le_refl t) (by omega)))
    · intro u hu1 hu2
      rcases Nat.eq_or_lt_of_le hu1 with heq | hu1'
      · rw [hwrites_eq, ← heq, ihaway (orbPos n s start t + toIdx) ?haway]
        · rw [hb1def, List.getElem?_set_self (hposlt t)]
          exact getD_eq_getElem?_of_lt (hposlt (t + 1))
        case haway =>
          intro u' hu'1 hu'2 hcon
          have heq2 : orbPos n s start t = orbPos n s start u' := by omega
          have := orbPos_inj n s start hn t u'
            (by omega) (by omega) heq2
          omega
      · rw [hwrites_eq, ihhit u (by omega) (by omega), hb1def]
        apply List.getElem?_set_ne
        intro hcon
        have heq2 : orbPos n s start t = orbPos n s start (u + 1) := by omega
        have := orbPos_inj n s start hn t (u + 1)
          (by omega) (by omega) heq2
        omega

theorem jugglingCycle_spec (n s toIdx start : Nat) (buf : List Pixel)
    (hn : 0 < n) (hs0 : 0 < s) (hsn : s < n) (hst : start < n)
    (hb : toIdx + n ≤ buf.length) :
    ((jugglingCycle n s toIdx buf start).length = buf.length) ∧
    (∀ u, u < n / Nat.gcd n s →
      (jugglingCycle n s toIdx buf start)[orbPos n s start u + toIdx]? =
        buf[orbPos n s start (u + 1) + toIdx]?) ∧
    (∀ j, (∀ u, u < n / Nat.gcd n s → j ≠ orbPos n s start u + toIdx) →
      (jugglingCycle n s toIdx buf start)[j]? = buf[j]?) := by
  have hm2 : 2 ≤ n / Nat.gcd n s := orb_m_two_le n s hn hs0 hsn
  have hmn : n / Nat.gcd n s ≤ n := Nat.div_le_self n _
  have hrun := cycLoop_eq_cycWrites n s toIdx start hn hs0 hsn hst
    (n / Nat.gcd n s - 1) n 0 buf (by omega) (by omega)
  rw [orbPos_zero n s start hst] at hrun
  have hjc : jugglingCycle n s toIdx buf start =
      (cycWrites n s toIdx start 0 (n / Nat.gcd n s - 1) buf).set
        (orbPos n s start (n / Nat.gcd n s - 1) + toIdx)
        (buf.getD (start + toIdx) default) := by
    unfold jugglingCycle
    rw [hrun]
  obtain ⟨wlen, waway, whit⟩ := cycWrites_spec n s toIdx start hn hs0 hsn hst
    (n / Nat.gcd n s - 1) 0 buf (by omega) hb
  have hposlt : ∀ u, orbPos n s start u + toIdx < buf.length := fun u => by
    have := orbPos_lt n s start u hn
    omega
  refine ⟨?_, ?_, ?_⟩
  · rw [hjc, List.length_set, wlen]
  · intro u hu
    rcases Nat.lt_or_ge u (n / Nat.gcd n s - 1) with hu' | hu'
    · rw [hjc, List.getElem?_set_ne ?hne, whit u (by omega) (by omega)]
      case hne =>
        intro hcon
        have heq2 : orbPos n s start (n / Nat.gcd n s - 1) =
            orbPos n s start u := by omega
        have := orbPos_inj n s start hn (n / Nat.gcd n s - 1) u
          (by omega) (by omega) heq2
        omega
    · have hu'' : u = n / Nat.gcd n s - 1 := by omega
      rw [hjc, hu'', List.getElem?_set_self (by rw [wlen]; exact hposlt _)]
      have hmm : orbPos n s start (n / Nat.gcd n s - 1 + 1) = start := by
        rw [show n / Nat.gcd n s - 1 + 1 = n / Nat.gcd n s from by omega]
        exact (orbPos_eq_start_iff n s start _ hn hst).mpr dvd_rfl
      rw [hmm]
      exact getD_eq_getElem?_of_lt (by omega)
  · intro j hj
    rw [hjc, List.getElem?_set_ne (Ne.symm (hj _ (by omega))),
      waway j (fun u hu1 hu2 => hj u (by omega))]

theorem shiftDownRun_spec (n s toIdx : Nat) (buf : List Pixel)
    (hn : 0 < n) (hs0 : 0 < s) (hsn : s < n) (hb : toIdx + n ≤ buf.length) :
    ((shiftDownRun n s toIdx buf).length = buf.length) ∧
    (∀ i, i < n →
      (shiftDownRun n s toIdx buf)[i + toIdx]? = buf[(i + s) % n + toIdx]?) ∧
    (∀ j, j < toIdx ∨ toIdx + n ≤ j →
      (shiftDownRun n s toIdx buf)[j]? = buf[j]?) := by
  have hgpos : 0 < Nat.gcd n s := Nat.gcd_pos_of_pos_left s hn
  have hgs' : Nat.gcd n s ≤ s := Nat.le_of_dvd hs0 (Nat.gcd_dvd_right n s)
  have aux : ∀ r, r ≤ Nat.gcd n s →
      (((List.range r).foldl (jugglingCycle n s toIdx) buf).length = buf.length) ∧
      (∀ i, i < n → i % Nat.gcd n s < r →
        ((List.range r).foldl (jugglingCycle n s toIdx) buf)[i + toIdx]? =
          buf[(i + s) % n + toIdx]?) ∧
      (∀ i, i < n → r ≤ i % Nat.gcd n s →
        ((List.range r).foldl (jugglingCycle n s toIdx) buf)[i + toIdx]? =
          buf[i + toIdx]?) ∧
      (∀ j, j < toIdx ∨ toIdx + n ≤ j →
        ((List.range r).foldl (jugglingCycle n s toIdx) buf)[j]? = buf[j]?) := by
    intro r
    induction r with
    | zero =>
      intro _
      exact ⟨rfl, fun i hi h0 => by omega, fun i _ _ => rfl, fun j _ => rfl⟩
    | succ r ih =>
      intro hr
      obtain ⟨plen, pdone, ppend, pout⟩ := ih (by omega)
      have hfold : (List.range (r + 1)).foldl (jugglingCycle n s toIdx) buf =
          jugglingCycle n s toIdx
            ((List.range r).foldl (jugglingCycle n s toIdx) buf) r := by
        rw [List.range_succ, List.foldl_append]
        rfl
      have hrg : r < Nat.gcd n s := by omega
      have hrn : r < n := by omega
      obtain ⟨clen, chit, caway⟩ := jugglingCycle_spec n s toIdx r
        ((List.range r).foldl (jugglingCycle n s toIdx) buf) hn hs0 hsn hrn
        (by rw [plen]; exact hb)
      refine ⟨?_, ?_, ?_, ?_⟩
      · rw [hfold, clen, plen]
      · intro i hi hir
        rcases Nat.lt_or_ge (i % Nat.gcd n s) r with hcase | hcase
        · rw [hfold, caway (i + toIdx) ?away1, pdone i hi hcase]
          case away1 =>
            intro u hu hcon
            have hieq : i = orbPos n s r u := Nat.add_right_cancel hcon
            have hres := orbPos_mod_gcd n s r u
            rw [Nat.mod_eq_of_lt hrg] at hres
            rw [hieq, hres] at hcase
            exact lt_irrefl r hcase
        · have hia : i % Nat.gcd n s = r := by omega
          obtain ⟨u, hum, hupos⟩ :=
            orbPos_surj n s r i hn hs0 hsn hrg hi hia
          rw [hfold]
          have h1 : (jugglingCycle n s toIdx
              ((List.range r).foldl (jugglingCycle n s toIdx) buf) r)[i + toIdx]? =
              ((List.range r).foldl (jugglingCycle n s toIdx) buf)[orbPos n s r (u + 1) + toIdx]? := by
            rw [← hupos]
            exact chit u hum
          have h2 : orbPos n s r (u + 1) = (i + s) % n := by
            rw [orbPos_succ, hupos]
          have h3 : (i + s) % n % Nat.gcd n s = r := by
            rw [← h2, orbPos_mod_gcd n s r (u + 1), Nat.mod_eq_of_lt hrg]
          rw [h1, h2]
          exact ppend _ (Nat.mod_lt _ hn) (le_of_eq h3.symm)
      · intro i hi hir
        rw [hfold, caway (i + toIdx) ?away2, ppend i hi (by omega)]
        case away2 =>
          intro u hu hcon
          have hieq : i = orbPos n s r u := Nat.add_right_cancel hcon
          have hres := orbPos_mod_gcd n s r u
          rw [Nat.mod_eq_of_lt hrg] at hres
          rw [hieq, hres] at hir
          omega
      · intro j hj
        rw [hfold, caway j ?away3, pout j hj]
        case away3 =>
          intro u hu hcon
          have := orbPos_lt n s r u hn
          omega
  obtain ⟨flen, fdone, -, fout⟩ := aux (Nat.gcd n s) (le_refl _)
  exact ⟨flen, fun i hi => fdone i hi (Nat.mod_lt _ hgpos), fout⟩

theorem shift_whole_down (buf : List Pixel) (k : Nat) (h : 1 < buf.length) :
    PixelVector.shift buf (buf.length - 1) 0 k =
      if 0 < k % buf.length then
        shiftDownRun buf.length (k % buf.length) 0 buf
      else buf := by
  simp only [PixelVector.shift]
  rw [if_neg (by omega : ¬ (buf.length ≤ buf.length - 1)),
    if_neg (by omega : ¬ (buf.length ≤ 0)),
    if_pos (by omega : (0 : Nat) < buf.length - 1),
    show buf.length - 1 - 0 + 1 = buf.length from by omega]

theorem shift_whole_up (buf : List Pixel) (k : Nat) (h : 1 < buf.length)
    (hW : buf.length < SIZE_W) (hk : k ≤ buf.length) :
    PixelVector.shift buf 0 (buf.length - 1) k =
      if 0 < (buf.length - k) % buf.length then
        shiftDownRun buf.length ((buf.length - k) % buf.length) 0 buf
      else buf := by
  simp only [PixelVector.shift]
  rw [if_neg (by omega : ¬ (buf.length ≤ 0)),
    if_neg (by omega : ¬ (buf.length ≤ buf.length - 1)),
    if_neg (by omega : ¬ (buf.length - 1 < 0)),
    if_pos (by omega : (0 : Nat) < buf.length - 1),
    show buf.length - 1 - 0 + 1 = buf.length from by omega]
  have e1 : k % SIZE_W = k := Nat.mod_eq_of_lt (by omega)
  have e2 : (buf.length + SIZE_W - k) % SIZE_W = buf.length - k := by
    rw [show buf.length + SIZE_W - k = buf.length - k + SIZE_W from by omega,
      Nat.add_mod_right]
    exact Nat.mod_eq_of_lt (by omega)
  rw [e1, e2]

theorem shl_spec (buf : List Pixel) (k : Nat) :
    ((PixelVector.shl buf k).length = buf.length) ∧
    (∀ i, i < buf.length →
      (PixelVector.shl buf k)[i]? = buf[(i + k) % buf.length]?) := by
  unfold PixelVector.shl
  by_cases h : 1 < buf.length
  · rw [if_pos h, shift_whole_down buf k h]
    by_cases hs : 0 < k % buf.length
    · rw [if_pos hs]
      obtain ⟨dlen, dspec, -⟩ := shiftDownRun_spec buf.length (k % buf.length)
        0 buf (by omega) hs (Nat.mod_lt _ (by omega)) (by omega)
      refine ⟨dlen, fun i hi => ?_⟩
      have hd := dspec i hi
      rw [Nat.add_zero, Nat.add_zero] at hd
      rw [hd]
      congr 1
      exact Nat.add_mod_mod i k buf.length
    · rw [if_neg hs]
      refine ⟨rfl, fun i hi => ?_⟩
      congr 1
      have h0 : k % buf.length = 0 := by omega
      rw [← Nat.add_mod_mod, h0, Nat.add_zero, Nat.mod_eq_of_lt hi]
  · rw [if_neg h]
    refine ⟨rfl, fun i hi => ?_⟩
    congr 1
    have h1 : buf.length = 1 := by omega
    have h2 : i = 0 := by omega
    rw [h1, h2, Nat.mod_one]

theorem shr_spec (buf : List Pixel) (k : Nat) (hk : k ≤ buf.length)
    (hW : buf.length < SIZE_W) :
    ((PixelVector.shr buf k).length = buf.length) ∧
    (∀ i, i < buf.length →
      (PixelVector.shr buf k)[i]? =
        buf[(i + (buf.length - k)) % buf.length]?) := by
  unfold PixelVector.shr
  by_cases h : 1 < buf.length
  · rw [if_pos h, shift_whole_up buf k h hW hk]
    by_cases hs : 0 < (buf.length - k) % buf.length
    · rw [if_pos hs]
      obtain ⟨dlen, dspec, -⟩ := shiftDownRun_spec buf.length
        ((buf.length - k) % buf.length) 0 buf (by omega) hs
        (Nat.mod_lt _ (by omega)) (by omega)
      refine ⟨dlen, fun i hi => ?_⟩
      have hd := dspec i hi
      rw [Nat.add_zero, Nat.add_zero] at hd
      rw [hd]
      congr 1
      exact Nat.add_mod_mod i (buf.length - k) buf.length
    · rw [if_neg hs]
      refine ⟨rfl, fun i hi => ?_⟩
      congr 1
      have h0 : (buf.length - k) % buf.length = 0 := by omega
      rw [← Nat.add_mod_mod, h0, Nat.add_zero, Nat.mod_eq_of_lt hi]
  · rw [if_neg h]
    refine ⟨rfl, fun i hi => ?_⟩
    congr 1
    have h1 : buf.length = 1 := by omega
    have h2 : i = 0 := by omega
    rw [h1, h2, Nat.mod_one]

/-- C5 counterexample: on a 3-pixel buffer, shifting up (`operator>>`) by
`k = 5` and then by `(n - k mod n) mod n = 1` does **not** restore the
buffer.  The up-shift computes `equivalent = (n - shift) % n` in unsigned
32-bit arithmetic, and for `shift = 5 > n = 3` the subtraction wraps:
`(3 - 5) mod 2^32 mod 3 = 2` instead of the intended `1`, so `>> 5` acts as
`>> 1` and the pair composes to a net rotation by 2. -/
theorem C5_shr_large_count_not_restored :
    PixelVector.shr (PixelVector.shr c5DemoBuf 5)
      ((c5DemoBuf.length - 5 % c5DemoBuf.length) % c5DemoBuf.length) ≠
      c5DemoBuf := by
  decide

/-- C5 (amended): for every buffer of size `n ≥ 1` (with `n < 2^32`, the
`size_type` range) and every shift count `k`, rotating the whole buffer by
`k` and then by `(n - k mod n) mod n` in the same direction restores the
buffer exactly — unconditionally for the downward direction (`operator<<`),
and for the upward direction (`operator>>`) provided `k ≤ n`; both rotations
are bijections on the index set, no pixel duplicated or dropped. -/
theorem mod_add_cancel_right {len a b : Nat} (ha : a < len) (hb : b % len = 0) :
    (a + b) % len = a := by
  rw [Nat.add_mod, hb, Nat.add_zero, Nat.mod_mod_of_dvd _ dvd_rfl,
    Nat.mod_eq_of_lt ha]

theorem C5_rotation_pair_restores (buf : List Pixel) (k : Nat)
    (h1 : 1 ≤ buf.length) (hW : buf.length < SIZE_W) :
    (PixelVector.shl (PixelVector.shl buf k)
      ((buf.length - k % buf.length) % buf.length) = buf) ∧
    (k ≤ buf.length →
      PixelVector.shr (PixelVector.shr buf k)
        ((buf.length - k % buf.length) % buf.length) = buf) := by
  constructor
  · obtain ⟨l1, s1⟩ := shl_spec buf k
    obtain ⟨l2, s2⟩ := shl_spec (PixelVector.shl buf k)
      ((buf.length - k % buf.length) % buf.length)
    rw [l1] at l2 s2
    apply List.ext_getElem?
    intro j
    by_cases hj : j < buf.length
    · rw [s2 j hj, s1 _ (Nat.mod_lt _ (by omega))]
      congr 1
      rw [Nat.mod_add_mod, Nat.add_assoc]
      have hsum : ((buf.length - k % buf.length) % buf.length + k)
          % buf.length = 0 := by
        rw [← Nat.add_mod_mod]
        rcases Nat.eq_zero_or_pos (k % buf.length) with h0 | hpos
        · rw [h0, Nat.add_zero, Nat.mod_mod_of_dvd _ dvd_rfl, Nat.sub_zero,
            Nat.mod_self]
        · have hlt : k % buf.length < buf.length := Nat.mod_lt _ (by omega)
          rw [Nat.mod_eq_of_lt (by omega : buf.length - k % buf.length < buf.length),
            show buf.length - k % buf.length + k % buf.length = buf.length
              from by omega, Nat.mod_self]
      exact mod_add_cancel_right hj hsum
    · rw [List.getElem?_eq_none (by omega : buf.length ≤ j),
        List.getElem?_eq_none (by rw [l2]; omega)]
  · intro hk
    obtain ⟨l1, s1⟩ := shr_spec buf k hk hW
    obtain ⟨l2, s2⟩ := shr_spec (PixelVector.shr buf k)
      ((buf.length - k % buf.length) % buf.length)
      (by rw [l1]; exact le_of_lt (Nat.mod_lt _ (by omega)))
      (by rw [l1]; exact hW)
    rw [l1] at l2 s2
    apply List.ext_getElem?
    intro j
    by_cases hj : j < buf.length
    · rw [s2 j hj, s1 _ (Nat.mod_lt _ (by omega))]
      congr 1
      rw [Nat.mod_add_mod, Nat.add_assoc]
      have hsum : (buf.length - (buf.length - k % buf.length) % buf.length
          + (buf.length - k)) % buf.length = 0 := by
        rcases Nat.lt_or_ge k buf.length with hlt | hge
        · rcases Nat.eq_zero_or_pos k with rfl | hkpos
          · rw [Nat.zero_mod, Nat.sub_zero, Nat.mod_self, Nat.sub_zero,
              Nat.add_mod_left, Nat.mod_self]
          · have hkm : k % buf.length = k := Nat.mod_eq_of_lt hlt
            rw [hkm, Nat.mod_eq_of_lt (by omega : buf.length - k < buf.length),
              show buf.length - (buf.length - k) + (buf.length - k) = buf.length
                from by omega, Nat.mod_self]
        · have hkl : k = buf.length := by omega
          rw [hkl]
          simp [Nat.mod_self, Nat.sub_self, Nat.sub_zero, Nat.add_zero]
      exact mod_add_cancel_right hj hsum
    · rw [List.getElem?_eq_none (by omega : buf.length ≤ j),
        List.getElem?_eq_none (by rw [l2]; omega)]

/-- C5 witness: the amended rotation theorem applied to the concrete 3-pixel
buffer and `k = 2 ≤ 3`. -/
theorem C5_rotation_pair_restores_witness :
    1 ≤ c5DemoBuf.length ∧ c5DemoBuf.length < SIZE_W ∧ 2 ≤ c5DemoBuf.length ∧
    (PixelVector.shl (PixelVector.shl c5DemoBuf 2)
      ((c5DemoBuf.length - 2 % c5DemoBuf.length) % c5DemoBuf.length)
      = c5DemoBuf) ∧
    (PixelVector.shr (PixelVector.shr c5DemoBuf 2)
      ((c5DemoBuf.length - 2 % c5DemoBuf.length) % c5DemoBuf.length)
      = c5DemoBuf) :=
  ⟨by decide, by decide, by decide,
    (C5_rotation_pair_restores c5DemoBuf 2 (by decide) (by decide)).1,
    (C5_rotation_pair_restores c5DemoBuf 2 (by decide) (by decide)).2 (by decide)⟩

end LEDStrip
